import Mathlib

/-!
# A verification of `pr_review_tool.py`

Shallow embedding of the core of the PR review tool: the diff-aggregation
algorithm (`track_add_delete_lines`), the Python syntax-tree analyzer
(`analyze_python_code_ast`), the regex line analyzer
(`analyze_text_file_lines`), the external-tool analyzers, and the per-file
extension router of `review_pr`.

External collaborators (the GitHub fetches, file IO, regex matching,
subprocess execution, the Python parser) are modelled as explicit inputs:
the fetched diffs arrive as data, a file read or a subprocess invocation is
an `Except` value, a regex is an opaque line predicate, and the Python
parser's outcome is an `Except` producing a syntax tree.  Python string
methods are modelled character-list-wise so that every definition computes.
-/

/-- A reported observation: line number (0 when not applicable), snippet or
message text, and reason label.  Mirrors the `(lineno, text, reason)` tuples
appended to `findings` throughout the source. -/
structure Finding where
  lineno : Nat
  text : String
  reason : String
deriving DecidableEq, Repr

/-- Whitespace characters stripped by Python `str.strip()` (the ASCII ones:
space, tab, newline, carriage return, vertical tab, form feed). -/
def isPySpace (c : Char) : Bool :=
  c.isWhitespace || c = '\x0b' || c = '\x0c'

/-- Model of Python `str.strip()`: drop leading and trailing whitespace. -/
def pyStrip (s : String) : String :=
  String.mk (((s.data.dropWhile isPySpace).reverse.dropWhile isPySpace).reverse)

/-- Model of Python `str.startswith(pre)`. -/
def pyStartsWith (s pre : String) : Bool :=
  pre.data.isPrefixOf s.data

/-- Model of Python `str.endswith(suf)`. -/
def pyEndsWith (s suf : String) : Bool :=
  suf.data.isSuffixOf s.data

/-- Model of Python `line[1:]`: drop the first character. -/
def pyDrop1 (s : String) : String :=
  String.mk (s.data.drop 1)

/-- Helper for `splitlines`: `acc` is the current (reversed) line. -/
def splitlinesAux : List Char → List Char → List String
  | [], [] => []
  | [], acc => [String.mk acc.reverse]
  | '\r' :: '\n' :: rest, acc => String.mk acc.reverse :: splitlinesAux rest []
  | '\r' :: rest, acc => String.mk acc.reverse :: splitlinesAux rest []
  | '\n' :: rest, acc => String.mk acc.reverse :: splitlinesAux rest []
  | c :: rest, acc => splitlinesAux rest (c :: acc)

/-- Model of Python `str.splitlines()`, restricted to the separators
`\n`, `\r\n` and `\r` (the ones that occur in patch bodies and tool
output): no trailing empty line, and an empty string yields no lines. -/
def splitlines (s : String) : List String :=
  splitlinesAux s.data []

/-- Helper for `pyContains`. -/
def containsAux (sub : List Char) : List Char → Bool
  | [] => sub.isPrefixOf []
  | c :: rest => sub.isPrefixOf (c :: rest) || containsAux sub rest

/-- Model of the Python substring test `sub in s`. -/
def pyContains (s sub : String) : Bool :=
  containsAux sub.data s.data

/-! ## The Change Reconciler: `track_add_delete_lines`

The Python dicts `added_lines` / `removed_lines` map a filename to a set of
normalized line strings; they are modelled as insertion-ordered association
lists of `Finset String`, which is exactly the observable state of a Python
dict of sets. -/

/-- Insertion-ordered map from filename to a set of line strings. -/
abbrev LineMap : Type := List (String × Finset String)

/-- Dictionary lookup (`None` when the key is absent). -/
def LineMap.find : LineMap → String → Option (Finset String)
  | [], _ => none
  | (k', v) :: rest, k => if k' = k then some v else LineMap.find rest k

/-- The set stored at `k`, defaulting to the empty set: models
`m.get(k, set())`. -/
def LineMap.getSet (m : LineMap) (k : String) : Finset String :=
  (LineMap.find m k).getD ∅

/-- Model of `m.setdefault(k, set()).add(line)`. -/
def LineMap.addLine : LineMap → String → String → LineMap
  | [], k, line => [(k, {line})]
  | (k', v) :: rest, k, line =>
      if k' = k then (k', insert line v) :: rest
      else (k', v) :: LineMap.addLine rest k line

/-- One file's diff inside one commit: a filename plus an optional patch
body (the `files` records returned by `fetch_commit_diff`, whose `patch`
key is absent for binary/huge files). -/
structure FileDiff where
  filename : String
  patch : Option String
deriving DecidableEq, Repr

/-- A commit, expanded to its file diffs.  The fetch by SHA is an external
collaborator; the reconciler only consumes the resulting records. -/
abbrev Commit : Type := List FileDiff

/-- The mutable state of `track_add_delete_lines`:
`(added_lines, removed_lines)`. -/
abbrev TrackState : Type := LineMap × LineMap

/-- Condition of the first branch of the patch-line loop:
`line.startswith('+') and not line.startswith('+++')`. -/
def lineAdded (line : String) : Bool :=
  pyStartsWith line "+" && !pyStartsWith line "+++"

/-- Condition of the second branch of the patch-line loop:
`line.startswith('-') and not line.startswith('---')`. -/
def lineRemoved (line : String) : Bool :=
  pyStartsWith line "-" && !pyStartsWith line "---"

/-- The normalized content contributed by a marker line:
`line[1:].strip()`. -/
def stripMarker (line : String) : String :=
  pyStrip (pyDrop1 line)

/-- One iteration of the patch-line loop of `track_add_delete_lines`. -/
def processLine (filename : String) (st : TrackState) (line : String) : TrackState :=
  if lineAdded line then
    (LineMap.addLine st.1 filename (stripMarker line), st.2)
  else if lineRemoved line then
    (st.1, LineMap.addLine st.2 filename (stripMarker line))
  else st

/-- The line loop over one patch body. -/
def processPatch (filename : String) (st : TrackState) (patch : String) : TrackState :=
  (splitlines patch).foldl (processLine filename) st

/-- The per-file body of the commit loop: `patch = file.get("patch", "")`;
`if not patch: continue` (the empty string is the only falsy value here);
then the line loop. -/
def processFile (st : TrackState) (fd : FileDiff) : TrackState :=
  if fd.patch.getD "" = "" then st else processPatch fd.filename st (fd.patch.getD "")

/-- The per-commit loop body. -/
def processCommit (st : TrackState) (c : Commit) : TrackState :=
  c.foldl processFile st

/-- The final loop of `track_add_delete_lines`: for each filename of
`added_lines` (insertion order), intersect with the matching removed set and
keep the filename only when the intersection is non-empty. -/
def reconcile : LineMap → LineMap → LineMap
  | [], _ => []
  | (k, v) :: rest, removed =>
      let d := v ∩ LineMap.getSet removed k
      if d.Nonempty then (k, d) :: reconcile rest removed
      else reconcile rest removed

/-- `track_add_delete_lines(commits)` from the source. -/
def track_add_delete_lines (commits : List Commit) : LineMap :=
  let st := commits.foldl processCommit (([], []) : TrackState)
  reconcile st.1 st.2

/-! Specification-side (declarative) descriptions of the accumulated sets,
used to state what the imperative folds compute. -/

/-- The Added set contributed by a list of patch lines. -/
def linesAddedSet (lines : List String) : Finset String :=
  ((lines.filter lineAdded).map stripMarker).toFinset

/-- The Removed set contributed by a list of patch lines. -/
def linesRemovedSet (lines : List String) : Finset String :=
  ((lines.filter lineRemoved).map stripMarker).toFinset

/-- The Added set extracted from one patch body. -/
def patchAddedSet (patch : String) : Finset String :=
  linesAddedSet (splitlines patch)

/-- The Removed set extracted from one patch body. -/
def patchRemovedSet (patch : String) : Finset String :=
  linesRemovedSet (splitlines patch)

/-- Contribution of one file diff to filename `fn`'s Added union. -/
def fileAddedSet (fn : String) (fd : FileDiff) : Finset String :=
  if fn = fd.filename then patchAddedSet (fd.patch.getD "") else ∅

/-- Contribution of one file diff to filename `fn`'s Removed union. -/
def fileRemovedSet (fn : String) (fd : FileDiff) : Finset String :=
  if fn = fd.filename then patchRemovedSet (fd.patch.getD "") else ∅

/-- All file diffs of a change request, in commit order. -/
def allFiles : List Commit → List FileDiff
  | [] => []
  | c :: rest => c ++ allFiles rest

/-- Union of a per-file contribution over a list of file diffs. -/
def unionOver : List FileDiff → (FileDiff → Finset String) → Finset String
  | [], _ => ∅
  | fd :: rest, g => g fd ∪ unionOver rest g

/-- Filename `fn`'s Added union, accumulated over the whole request. -/
def addedUnion (commits : List Commit) (fn : String) : Finset String :=
  unionOver (allFiles commits) (fileAddedSet fn)

/-- Filename `fn`'s Removed union, accumulated over the whole request. -/
def removedUnion (commits : List Commit) (fn : String) : Finset String :=
  unionOver (allFiles commits) (fileRemovedSet fn)

/-! ### Lemmas about the map operations -/

theorem LineMap.find_addLine (m : LineMap) (k k' l : String) :
    LineMap.find (LineMap.addLine m k l) k' =
      if k' = k then some (insert l (LineMap.getSet m k)) else LineMap.find m k' := by
  induction m with
  | nil =>
      by_cases h : k' = k
      · subst h
        simp [LineMap.addLine, LineMap.find, LineMap.getSet]
      · have h2 : ¬(k = k') := fun hh => h hh.symm
        simp [LineMap.addLine, LineMap.find, LineMap.getSet, h, h2]
  | cons hd rest ih =>
      obtain ⟨k0, v0⟩ := hd
      by_cases h0 : k0 = k
      · subst h0
        by_cases h : k' = k0 <;>
          simp [LineMap.addLine, LineMap.find, LineMap.getSet, h, eq_comm]
      · by_cases h : k' = k
        · subst h
          have hk : ¬(k0 = k') := h0
          simp [LineMap.addLine, LineMap.find, LineMap.getSet, hk, ih]
        · by_cases h2 : k0 = k' <;>
            simp [LineMap.addLine, LineMap.find, LineMap.getSet, h0, h, h2, ih]

theorem LineMap.getSet_addLine (m : LineMap) (k k' l : String) :
    LineMap.getSet (LineMap.addLine m k l) k' =
      if k' = k then insert l (LineMap.getSet m k) else LineMap.getSet m k' := by
  rw [LineMap.getSet, LineMap.find_addLine]
  by_cases h : k' = k <;> simp [h, LineMap.getSet]

theorem LineMap.mem_keys_addLine (m : LineMap) (k l q : String) :
    q ∈ (LineMap.addLine m k l).map Prod.fst ↔ q = k ∨ q ∈ m.map Prod.fst := by
  induction m with
  | nil => simp [LineMap.addLine]
  | cons hd rest ih =>
      obtain ⟨k0, v0⟩ := hd
      by_cases h0 : k0 = k
      · subst h0
        simp [LineMap.addLine]
      · simp only [LineMap.addLine, if_neg h0, List.map_cons, List.mem_cons, ih]
        tauto

theorem LineMap.nodupKeys_addLine (m : LineMap) (k l : String)
    (h : (m.map Prod.fst).Nodup) : ((LineMap.addLine m k l).map Prod.fst).Nodup := by
  induction m with
  | nil => simp [LineMap.addLine]
  | cons hd rest ih =>
      obtain ⟨k0, v0⟩ := hd
      rw [List.map_cons, List.nodup_cons] at h
      by_cases h0 : k0 = k
      · subst h0
        have heq : LineMap.addLine ((k0, v0) :: rest) k0 l = (k0, insert l v0) :: rest := by
          rw [LineMap.addLine, if_pos rfl]
        rw [heq, List.map_cons, List.nodup_cons]
        exact h
      · have heq : LineMap.addLine ((k0, v0) :: rest) k l
            = (k0, v0) :: LineMap.addLine rest k l := by
          rw [LineMap.addLine, if_neg h0]
        rw [heq, List.map_cons, List.nodup_cons]
        refine ⟨?_, ih h.2⟩
        intro hq
        rcases (LineMap.mem_keys_addLine rest k l k0).1 hq with h1 | h1
        · exact h0 h1
        · exact h.1 h1

theorem foldl_preserve {α β : Type} (f : β → α → β) (P : β → Prop)
    (hstep : ∀ b a, P b → P (f b a)) :
    ∀ (l : List α) (b : β), P b → P (l.foldl f b) := by
  intro l
  induction l with
  | nil => intro b hb; exact hb
  | cons a rest ih => intro b hb; exact ih _ (hstep b a hb)

/-- Both dicts have unique keys (as every Python dict does). -/
def NodupState (st : TrackState) : Prop :=
  (st.1.map Prod.fst).Nodup ∧ (st.2.map Prod.fst).Nodup

theorem nodupState_processLine (fn : String) (st : TrackState) (line : String)
    (h : NodupState st) : NodupState (processLine fn st line) := by
  by_cases h1 : lineAdded line
  · simpa [processLine, h1] using
      ⟨LineMap.nodupKeys_addLine _ fn (stripMarker line) h.1, h.2⟩
  · by_cases h2 : lineRemoved line
    · simpa [processLine, h1, h2] using
        ⟨h.1, LineMap.nodupKeys_addLine _ fn (stripMarker line) h.2⟩
    · simpa [processLine, h1, h2] using h

theorem nodupState_processFile (st : TrackState) (fd : FileDiff)
    (h : NodupState st) : NodupState (processFile st fd) := by
  rw [processFile]
  by_cases hp : fd.patch.getD "" = ""
  · rw [if_pos hp]
    exact h
  · rw [if_neg hp]
    exact foldl_preserve _ _ (nodupState_processLine fd.filename) _ _ h

theorem nodupState_track (commits : List Commit) :
    NodupState (commits.foldl processCommit (([], []) : TrackState)) := by
  refine foldl_preserve _ _ ?_ _ _ ⟨List.nodup_nil, List.nodup_nil⟩
  intro st c hst
  exact foldl_preserve _ _ nodupState_processFile _ _ hst

/-! ### The folds compute the declarative unions -/

theorem not_lineAdded_and_lineRemoved (line : String) :
    ¬(lineAdded line = true ∧ lineRemoved line = true) := by
  rintro ⟨ha, hr⟩
  have hpd : ("+" : String).data = ['+'] := by decide
  have hmd : ("-" : String).data = ['-'] := by decide
  unfold lineAdded at ha
  unfold lineRemoved at hr
  rw [Bool.and_eq_true] at ha hr
  have ha1 := ha.1
  have hr1 := hr.1
  unfold pyStartsWith at ha1 hr1
  rw [hpd] at ha1
  rw [hmd] at hr1
  cases hd : line.data with
  | nil =>
      rw [hd] at ha1
      simp [List.isPrefixOf] at ha1
  | cons c cs =>
      rw [hd] at ha1 hr1
      simp [List.isPrefixOf] at ha1 hr1
      rw [← ha1] at hr1
      exact absurd hr1 (by decide)

theorem linesAddedSet_cons (line : String) (rest : List String) :
    linesAddedSet (line :: rest) =
      if lineAdded line then insert (stripMarker line) (linesAddedSet rest)
      else linesAddedSet rest := by
  by_cases h : lineAdded line <;> simp [linesAddedSet, List.filter_cons, h]

theorem linesRemovedSet_cons (line : String) (rest : List String) :
    linesRemovedSet (line :: rest) =
      if lineRemoved line then insert (stripMarker line) (linesRemovedSet rest)
      else linesRemovedSet rest := by
  by_cases h : lineRemoved line <;> simp [linesRemovedSet, List.filter_cons, h]

theorem getSet_foldl_processLine (fn f : String) (lines : List String) :
    ∀ st : TrackState,
      LineMap.getSet ((lines.foldl (processLine fn) st).1) f =
          LineMap.getSet st.1 f ∪ (if f = fn then linesAddedSet lines else ∅) ∧
      LineMap.getSet ((lines.foldl (processLine fn) st).2) f =
          LineMap.getSet st.2 f ∪ (if f = fn then linesRemovedSet lines else ∅) := by
  induction lines with
  | nil => intro st; simp [linesAddedSet, linesRemovedSet]
  | cons line rest ih =>
      intro st
      rw [List.foldl_cons]
      by_cases ha : lineAdded line
      · have hr : lineRemoved line = false := by
          cases h : lineRemoved line
          · rfl
          · exact absurd ⟨ha, h⟩ (not_lineAdded_and_lineRemoved line)
        have hstep : processLine fn st line =
            (LineMap.addLine st.1 fn (stripMarker line), st.2) := by
          simp [processLine, ha]
        rw [hstep]
        obtain ⟨ih1, ih2⟩ := ih (LineMap.addLine st.1 fn (stripMarker line), st.2)
        constructor
        · rw [ih1, linesAddedSet_cons, if_pos ha]
          have := LineMap.getSet_addLine st.1 fn f (stripMarker line)
          rw [this]
          by_cases hf : f = fn <;>
            simp [hf, Finset.insert_union, Finset.union_insert]
        · rw [ih2, linesRemovedSet_cons, hr]
          simp
      · by_cases hrr : lineRemoved line
        · have hstep : processLine fn st line =
              (st.1, LineMap.addLine st.2 fn (stripMarker line)) := by
            simp [processLine, ha, hrr]
          rw [hstep]
          obtain ⟨ih1, ih2⟩ := ih (st.1, LineMap.addLine st.2 fn (stripMarker line))
          constructor
          · rw [ih1, linesAddedSet_cons]
            simp [ha]
          · rw [ih2, linesRemovedSet_cons, if_pos hrr]
            have := LineMap.getSet_addLine st.2 fn f (stripMarker line)
            rw [this]
            by_cases hf : f = fn <;>
              simp [hf, Finset.insert_union, Finset.union_insert]
        · have hstep : processLine fn st line = st := by
            simp [processLine, ha, hrr]
          rw [hstep]
          obtain ⟨ih1, ih2⟩ := ih st
          constructor
          · rw [ih1, linesAddedSet_cons]
            simp [ha]
          · rw [ih2, linesRemovedSet_cons]
            simp [hrr]

theorem patchAddedSet_empty : patchAddedSet "" = ∅ := by decide

theorem patchRemovedSet_empty : patchRemovedSet "" = ∅ := by decide

theorem getSet_foldl_processFile (f : String) (files : List FileDiff) :
    ∀ st : TrackState,
      LineMap.getSet ((files.foldl processFile st).1) f =
          LineMap.getSet st.1 f ∪ unionOver files (fileAddedSet f) ∧
      LineMap.getSet ((files.foldl processFile st).2) f =
          LineMap.getSet st.2 f ∪ unionOver files (fileRemovedSet f) := by
  induction files with
  | nil => intro st; simp [unionOver]
  | cons fd rest ih =>
      intro st
      rw [List.foldl_cons]
      have hfd : LineMap.getSet (processFile st fd).1 f =
            LineMap.getSet st.1 f ∪ fileAddedSet f fd ∧
          LineMap.getSet (processFile st fd).2 f =
            LineMap.getSet st.2 f ∪ fileRemovedSet f fd := by
        by_cases hp : fd.patch.getD "" = ""
        · rw [processFile, if_pos hp]
          simp [fileAddedSet, fileRemovedSet, hp, patchAddedSet_empty,
            patchRemovedSet_empty]
        · rw [processFile, if_neg hp]
          obtain ⟨h1, h2⟩ :=
            getSet_foldl_processLine fd.filename f (splitlines (fd.patch.getD "")) st
          rw [processPatch]
          constructor
          · rw [h1]
            simp only [fileAddedSet, patchAddedSet]
          · rw [h2]
            simp only [fileRemovedSet, patchRemovedSet]
      obtain ⟨ih1, ih2⟩ := ih (processFile st fd)
      constructor
      · rw [ih1, hfd.1, Finset.union_assoc, unionOver]
      · rw [ih2, hfd.2, Finset.union_assoc, unionOver]

theorem foldl_processCommit_eq_allFiles (commits : List Commit) :
    ∀ st : TrackState,
      commits.foldl processCommit st = (allFiles commits).foldl processFile st := by
  induction commits with
  | nil => intro st; rfl
  | cons c rest ih =>
      intro st
      rw [List.foldl_cons, allFiles, List.foldl_append, ih]
      rfl

theorem getSet_track_state (commits : List Commit) (f : String) :
    LineMap.getSet ((commits.foldl processCommit (([], []) : TrackState)).1) f =
        addedUnion commits f ∧
    LineMap.getSet ((commits.foldl processCommit (([], []) : TrackState)).2) f =
        removedUnion commits f := by
  rw [foldl_processCommit_eq_allFiles]
  obtain ⟨h1, h2⟩ := getSet_foldl_processFile f (allFiles commits) ([], [])
  constructor
  · rw [h1, addedUnion]
    simp [LineMap.getSet, LineMap.find]
  · rw [h2, removedUnion]
    simp [LineMap.getSet, LineMap.find]

/-! ### The final intersection loop -/

theorem find_reconcile_not_mem (removed : LineMap) (f : String) :
    ∀ added : LineMap, f ∉ added.map Prod.fst →
      LineMap.find (reconcile added removed) f = none := by
  intro added
  induction added with
  | nil => intro _; rfl
  | cons hd rest ih =>
      obtain ⟨k, v⟩ := hd
      intro h
      simp only [List.map_cons, List.mem_cons, not_or] at h
      rw [reconcile]
      by_cases hne : (v ∩ LineMap.getSet removed k).Nonempty
      · rw [if_pos hne, LineMap.find, if_neg (fun hh : k = f => h.1 hh.symm)]
        exact ih h.2
      · rw [if_neg hne]
        exact ih h.2

theorem find_some_mem_keys (f : String) (v : Finset String) :
    ∀ m : LineMap, LineMap.find m f = some v → f ∈ m.map Prod.fst := by
  intro m
  induction m with
  | nil => intro h; exact absurd h (by simp [LineMap.find])
  | cons hd rest ih =>
      obtain ⟨k, w⟩ := hd
      intro h
      rw [LineMap.find] at h
      by_cases hk : k = f
      · simp [hk]
      · rw [if_neg hk] at h
        simp only [List.map_cons, List.mem_cons]
        exact Or.inr (ih h)

theorem find_reconcile (removed : LineMap) (f : String) :
    ∀ added : LineMap, (added.map Prod.fst).Nodup →
      LineMap.find (reconcile added removed) f =
        (match LineMap.find added f with
         | some v =>
             if (v ∩ LineMap.getSet removed f).Nonempty then
               some (v ∩ LineMap.getSet removed f)
             else none
         | none => none) := by
  intro added
  induction added with
  | nil => intro _; rfl
  | cons hd rest ih =>
      obtain ⟨k, v⟩ := hd
      intro hnd
      rw [List.map_cons, List.nodup_cons] at hnd
      by_cases hk : k = f
      · subst hk
        rw [reconcile]
        by_cases hne : (v ∩ LineMap.getSet removed k).Nonempty
        · rw [if_pos hne, LineMap.find, if_pos rfl]
          simp [LineMap.find, hne]
        · rw [if_neg hne, find_reconcile_not_mem removed k rest hnd.1]
          simp [LineMap.find, hne]
      · rw [reconcile]
        have hfind : LineMap.find ((k, v) :: rest) f = LineMap.find rest f := by
          rw [LineMap.find, if_neg hk]
        by_cases hne : (v ∩ LineMap.getSet removed k).Nonempty
        · rw [if_pos hne, LineMap.find, if_neg hk, hfind]
          exact ih hnd.2
        · rw [if_neg hne, hfind]
          exact ih hnd.2

/-! ### Permutation invariance of the declarative unions -/

theorem mem_unionOver (x : String) (g : FileDiff → Finset String) :
    ∀ files : List FileDiff, x ∈ unionOver files g ↔ ∃ fd ∈ files, x ∈ g fd := by
  intro files
  induction files with
  | nil => simp [unionOver]
  | cons fd rest ih => simp [unionOver, ih]

theorem mem_allFiles (fd : FileDiff) :
    ∀ commits : List Commit, fd ∈ allFiles commits ↔ ∃ c ∈ commits, fd ∈ c := by
  intro commits
  induction commits with
  | nil => simp [allFiles]
  | cons c rest ih => simp [allFiles, ih]

theorem addedUnion_perm {commits commits' : List Commit}
    (h : commits.Perm commits') (fn : String) :
    addedUnion commits fn = addedUnion commits' fn := by
  apply Finset.ext
  intro x
  rw [addedUnion, addedUnion, mem_unionOver, mem_unionOver]
  constructor
  · rintro ⟨fd, hfd, hx⟩
    obtain ⟨c, hc, hfc⟩ := (mem_allFiles fd commits).1 hfd
    exact ⟨fd, (mem_allFiles fd commits').2 ⟨c, h.mem_iff.1 hc, hfc⟩, hx⟩
  · rintro ⟨fd, hfd, hx⟩
    obtain ⟨c, hc, hfc⟩ := (mem_allFiles fd commits').1 hfd
    exact ⟨fd, (mem_allFiles fd commits).2 ⟨c, h.mem_iff.2 hc, hfc⟩, hx⟩

theorem removedUnion_perm {commits commits' : List Commit}
    (h : commits.Perm commits') (fn : String) :
    removedUnion commits fn = removedUnion commits' fn := by
  apply Finset.ext
  intro x
  rw [removedUnion, removedUnion, mem_unionOver, mem_unionOver]
  constructor
  · rintro ⟨fd, hfd, hx⟩
    obtain ⟨c, hc, hfc⟩ := (mem_allFiles fd commits).1 hfd
    exact ⟨fd, (mem_allFiles fd commits').2 ⟨c, h.mem_iff.1 hc, hfc⟩, hx⟩
  · rintro ⟨fd, hfd, hx⟩
    obtain ⟨c, hc, hfc⟩ := (mem_allFiles fd commits').1 hfd
    exact ⟨fd, (mem_allFiles fd commits).2 ⟨c, h.mem_iff.2 hc, hfc⟩, hx⟩

/-! ### Claim C1 -/

/-- C1: the Change Reconciler `track_add_delete_lines` contains a filename
exactly when the intersection of that file's accumulated Added and Removed
unions is non-empty, and maps it to exactly that intersection; the result of
the lookup is invariant under permutation of the commit list (and, the sets
being sets, under repetition of a line); and on a single commit whose file
`a.py` has patch body `"+x = 1\n-x = 1\n"` the result maps `a.py` to the
one-element set `{"x = 1"}`. -/
theorem track_add_delete_lines_correct :
    (∀ (commits : List Commit) (fn : String),
        LineMap.find (track_add_delete_lines commits) fn =
          (if (addedUnion commits fn ∩ removedUnion commits fn).Nonempty then
            some (addedUnion commits fn ∩ removedUnion commits fn)
          else none)) ∧
    (∀ (commits commits' : List Commit) (fn : String), commits.Perm commits' →
        LineMap.find (track_add_delete_lines commits) fn =
          LineMap.find (track_add_delete_lines commits') fn) ∧
    track_add_delete_lines [[⟨"a.py", some "+x = 1\n-x = 1\n"⟩]]
      = [("a.py", {"x = 1"})] := by
  have main : ∀ (commits : List Commit) (fn : String),
      LineMap.find (track_add_delete_lines commits) fn =
        (if (addedUnion commits fn ∩ removedUnion commits fn).Nonempty then
          some (addedUnion commits fn ∩ removedUnion commits fn)
        else none) := by
    intro commits fn
    have hnd := (nodupState_track commits).1
    have hget := getSet_track_state commits fn
    rw [track_add_delete_lines]
    rw [find_reconcile _ fn _ hnd]
    rcases hfind : LineMap.find (commits.foldl processCommit (([], []) : TrackState)).1 fn
      with _ | v
    · have hempty : addedUnion commits fn = ∅ := by
        rw [← hget.1, LineMap.getSet, hfind]
        rfl
      rw [hempty]
      simp
    · have hv : v = addedUnion commits fn := by
        rw [← hget.1, LineMap.getSet, hfind]
        rfl
      rw [hget.2] at *
      rw [hv]
  refine ⟨main, fun commits commits' fn hperm => ?_, by decide⟩
  rw [main, main, addedUnion_perm hperm, removedUnion_perm hperm]

/-! ### Claim C2 -/

theorem mem_linesAddedSet (x : String) (lines : List String) :
    x ∈ linesAddedSet lines ↔
      ∃ line ∈ lines, lineAdded line = true ∧ x = stripMarker line := by
  simp only [linesAddedSet, List.mem_toFinset, List.mem_map, List.mem_filter]
  constructor
  · rintro ⟨line, ⟨hmem, hcond⟩, hx⟩
    exact ⟨line, hmem, hcond, hx.symm⟩
  · rintro ⟨line, hmem, hcond, hx⟩
    exact ⟨line, ⟨hmem, hcond⟩, hx.symm⟩

theorem mem_linesRemovedSet (x : String) (lines : List String) :
    x ∈ linesRemovedSet lines ↔
      ∃ line ∈ lines, lineRemoved line = true ∧ x = stripMarker line := by
  simp only [linesRemovedSet, List.mem_toFinset, List.mem_map, List.mem_filter]
  constructor
  · rintro ⟨line, ⟨hmem, hcond⟩, hx⟩
    exact ⟨line, hmem, hcond, hx.symm⟩
  · rintro ⟨line, hmem, hcond, hx⟩
    exact ⟨line, ⟨hmem, hcond⟩, hx.symm⟩

/-- C2: the extraction step puts `line[1:].strip()` into the file's Added
set exactly for the patch lines that start with `+` but not `+++`, and into
the Removed set exactly for those that start with `-` but not `---` (all
other lines — context lines, hunk headers, file headers — contribute to
neither set); an absent or empty patch body leaves both dicts untouched and
is not an error. -/
theorem patch_extraction_correct :
    (∀ (fn patch x : String),
        (x ∈ LineMap.getSet (processFile (([], []) : TrackState) ⟨fn, some patch⟩).1 fn ↔
          ∃ line ∈ splitlines patch,
            pyStartsWith line "+" = true ∧ pyStartsWith line "+++" = false ∧
            x = pyStrip (pyDrop1 line)) ∧
        (x ∈ LineMap.getSet (processFile (([], []) : TrackState) ⟨fn, some patch⟩).2 fn ↔
          ∃ line ∈ splitlines patch,
            pyStartsWith line "-" = true ∧ pyStartsWith line "---" = false ∧
            x = pyStrip (pyDrop1 line))) ∧
    (∀ fn : String,
        processFile (([], []) : TrackState) ⟨fn, none⟩ = ([], []) ∧
        processFile (([], []) : TrackState) ⟨fn, some ""⟩ = ([], [])) := by
  constructor
  · intro fn patch x
    have hchar : ∀ line : String,
        (lineAdded line = true ↔
          pyStartsWith line "+" = true ∧ pyStartsWith line "+++" = false) ∧
        (lineRemoved line = true ↔
          pyStartsWith line "-" = true ∧ pyStartsWith line "---" = false) := by
      intro line
      constructor
      · rw [lineAdded, Bool.and_eq_true, Bool.not_eq_true']
      · rw [lineRemoved, Bool.and_eq_true, Bool.not_eq_true']
    have hset : ∀ q : String,
        LineMap.getSet (processFile (([], []) : TrackState) ⟨fn, some patch⟩).1 q =
            (if q = fn then linesAddedSet (splitlines patch) else ∅) ∧
        LineMap.getSet (processFile (([], []) : TrackState) ⟨fn, some patch⟩).2 q =
            (if q = fn then linesRemovedSet (splitlines patch) else ∅) := by
      intro q
      by_cases hp : patch = ""
      · subst hp
        have : splitlines "" = [] := rfl
        rw [processFile]
        simp [linesAddedSet, linesRemovedSet, this, LineMap.getSet, LineMap.find]
      · rw [processFile]
        simp only [Option.getD]
        rw [if_neg hp, processPatch]
        obtain ⟨h1, h2⟩ := getSet_foldl_processLine fn q (splitlines patch) ([], [])
        constructor
        · rw [h1]
          simp [LineMap.getSet, LineMap.find]
        · rw [h2]
          simp [LineMap.getSet, LineMap.find]
    obtain ⟨hs1, hs2⟩ := hset fn
    rw [hs1, hs2, if_pos rfl, if_pos rfl]
    constructor
    · rw [mem_linesAddedSet]
      constructor
      · rintro ⟨line, hmem, hcond, hx⟩
        exact ⟨line, hmem, ((hchar line).1.1 hcond).1, ((hchar line).1.1 hcond).2, hx⟩
      · rintro ⟨line, hmem, hc1, hc2, hx⟩
        exact ⟨line, hmem, (hchar line).1.2 ⟨hc1, hc2⟩, hx⟩
    · rw [mem_linesRemovedSet]
      constructor
      · rintro ⟨line, hmem, hcond, hx⟩
        exact ⟨line, hmem, ((hchar line).2.1 hcond).1, ((hchar line).2.1 hcond).2, hx⟩
      · rintro ⟨line, hmem, hc1, hc2, hx⟩
        exact ⟨line, hmem, (hchar line).2.2 ⟨hc1, hc2⟩, hx⟩
  · intro fn
    exact ⟨rfl, rfl⟩

/-- Witness for C1: the permutation clause at a concrete two-commit
request, the `Perm` hypothesis discharged by computation. -/
theorem track_add_delete_lines_correct_witness :
    (([[⟨"a.py", some "+a\n"⟩], [⟨"a.py", some "-a\n"⟩]] : List Commit)).Perm
        [[⟨"a.py", some "-a\n"⟩], [⟨"a.py", some "+a\n"⟩]] ∧
    LineMap.find
        (track_add_delete_lines [[⟨"a.py", some "+a\n"⟩], [⟨"a.py", some "-a\n"⟩]]) "a.py"
      = LineMap.find
        (track_add_delete_lines [[⟨"a.py", some "-a\n"⟩], [⟨"a.py", some "+a\n"⟩]]) "a.py" :=
  ⟨by decide, track_add_delete_lines_correct.2.1 _ _ "a.py" (by decide)⟩

/-! ## The Structural Analyzer: `analyze_python_code_ast` -/

/-- A Python literal constant (`ast.Constant.value`).  Booleans are kept
distinct so that the embedding can speak about them, but Python's `bool` is
a subclass of `int`, which `isIntOrFloat` reflects.  A float is carried as
its `str()` rendering; no arithmetic is ever performed on it. -/
inductive PyConst where
  | intVal (n : Int)
  | floatVal (render : String)
  | boolVal (b : Bool)
  | strVal (s : String)
  | noneVal
deriving DecidableEq, Repr

/-- Python `isinstance(value, (int, float))`.  `True` and `False` satisfy
it because `bool` subclasses `int` in Python. -/
def isIntOrFloat : PyConst → Bool
  | .intVal _ => true
  | .floatVal _ => true
  | .boolVal _ => true
  | _ => false

/-- Python `str(value)` for the constant values above. -/
def constStr : PyConst → String
  | .intVal n => toString n
  | .floatVal r => r
  | .boolVal true => "True"
  | .boolVal false => "False"
  | .strVal s => s
  | .noneVal => "None"

/-- The expression fragment of the Python AST inspected by the analyzer:
names, attribute chains, calls and constants, each carrying its `lineno`. -/
inductive PyExpr where
  | name (lineno : Nat) (id : String)
  | attr (lineno : Nat) (value : PyExpr) (attrName : String)
  | call (lineno : Nat) (func : PyExpr) (args : List PyExpr)
  | const (lineno : Nat) (value : PyConst)

/-- The statement fragment of the Python AST.  `ifStmt`, `whileStmt` and
`forStmt` carry both their primary `body` and their `orelse` block, exactly
as `ast.If`/`ast.While`/`ast.For` do (an `elif` chain lives in `orelse`). -/
inductive PyStmt where
  | exprStmt (lineno : Nat) (value : PyExpr)
  | assign (lineno : Nat) (targets : List PyExpr) (value : PyExpr)
  | ret (lineno : Nat) (value : Option PyExpr)
  | pass (lineno : Nat)
  | functionDef (lineno : Nat) (defName : String) (body : List PyStmt)
  | ifStmt (lineno : Nat) (test : PyExpr) (body : List PyStmt) (orelse : List PyStmt)
  | whileStmt (lineno : Nat) (test : PyExpr) (body : List PyStmt) (orelse : List PyStmt)
  | forStmt (lineno : Nat) (target : PyExpr) (iter : PyExpr)
      (body : List PyStmt) (orelse : List PyStmt)

/-- `get_full_name(node)`: a `Name` gives its id, an `Attribute` gives
`get_full_name(value) + "." + attr`, anything else gives `""`. -/
def getFullName : PyExpr → String
  | .name _ id => id
  | .attr _ v a => getFullName v ++ "." ++ a
  | _ => ""

/-- Reason label of `visit_Call`. -/
def debugLabel : String := "🐍 Python debug function call"

/-- Reason label of `visit_Constant`. -/
def magicLabel : String := "🔢 Use of magic number"

/-- First reason label of `visit_FunctionDef`. -/
def tooLongLabel : String := "📏 Function is too long"

/-- Second reason label of `visit_FunctionDef`. -/
def nestingLabel : String := "🌀 Nesting too deep"

/-- The configured debug-callee list
`['print', 'pdb.set_trace', 'logging.debug']`. -/
def debugFuncs : List String := ["print", "pdb.set_trace", "logging.debug"]

mutual
/-- Contribution of one statement to `nesting_depth`'s loop: the source
tests `hasattr(stmt, 'body')` and recurses into `stmt.body` only — the
statement's primary body — at `level + 1`; `orelse` blocks take no part. -/
def nestingDepthStmt : PyStmt → Nat → Nat
  | .functionDef _ _ body, level => nesting_depth body (level + 1)
  | .ifStmt _ _ body _, level => nesting_depth body (level + 1)
  | .whileStmt _ _ body _, level => nesting_depth body (level + 1)
  | .forStmt _ _ _ body _, level => nesting_depth body (level + 1)
  | _, level => level

/-- `nesting_depth(body, level)` from the source: the running maximum of
`level` and the recursive depths of the statements' primary bodies. -/
def nesting_depth : List PyStmt → Nat → Nat
  | [], level => level
  | s :: rest, level => max (nestingDepthStmt s level) (nesting_depth rest level)
end

mutual
/-- `ast.NodeVisitor` dispatch on one expression node.  `visit_Call` and
`visit_Constant` are custom visitors; `Name` and `Attribute` fall back to
`generic_visit`, which walks child nodes in field order. -/
def visitExpr : PyExpr → List Finding
  | .name _ _ => []
  | .attr _ v _ => visitExpr v
  | .const ln v =>
      if isIntOrFloat v then [⟨ln, constStr v, magicLabel⟩] else []
  | .call ln f args =>
      (if debugFuncs.contains (getFullName f) then
        [⟨ln, getFullName f, debugLabel⟩]
      else []) ++ (visitExpr f ++ visitExprs args)

/-- Visit a list of child expressions in order. -/
def visitExprs : List PyExpr → List Finding
  | [] => []
  | e :: rest => visitExpr e ++ visitExprs rest
end

mutual
/-- Dispatch on one statement node: `visit_FunctionDef` is the custom
visitor (length check, depth check, then `generic_visit`); every other
statement falls back to `generic_visit`, which visits child nodes in field
order. -/
def visitStmt : PyStmt → List Finding
  | .exprStmt _ v => visitExpr v
  | .assign _ targets v => visitExprs targets ++ visitExpr v
  | .ret _ none => []
  | .ret _ (some v) => visitExpr v
  | .pass _ => []
  | .functionDef ln nm body =>
      (if body.length > 50 then [⟨ln, nm, tooLongLabel⟩] else []) ++
      ((if nesting_depth body 1 > 4 then [⟨ln, nm, nestingLabel⟩] else []) ++
        visitStmts body)
  | .ifStmt _ t body orelse => visitExpr t ++ (visitStmts body ++ visitStmts orelse)
  | .whileStmt _ t body orelse => visitExpr t ++ (visitStmts body ++ visitStmts orelse)
  | .forStmt _ tgt it body orelse =>
      visitExpr tgt ++ (visitExpr it ++ (visitStmts body ++ visitStmts orelse))

/-- Visit a statement sequence in order. -/
def visitStmts : List PyStmt → List Finding
  | [] => []
  | s :: rest => visitStmt s ++ visitStmts rest
end

/-- `analyze_python_code_ast`: the parse itself is `ast.parse` (standard
library, external); the analyzer consumes its outcome.  A parse failure
`e` yields the single finding `(0, "AST parsing failed: " + e, "⚠️")` and
no walk; a parsed module body is walked by the visitor. -/
def analyze_python_code_ast (parsed : Except String (List PyStmt)) : List Finding :=
  match parsed with
  | .error e => [⟨0, "AST parsing failed: " ++ e, "⚠️"⟩]
  | .ok body => visitStmts body

/-! ### Collected node lists (for stating which nodes the walk reaches) -/

mutual
/-- All constant nodes (with line numbers) in an expression, in visit
order. -/
def collectConstsExpr : PyExpr → List (Nat × PyConst)
  | .name _ _ => []
  | .attr _ v _ => collectConstsExpr v
  | .const ln v => [(ln, v)]
  | .call _ f args => collectConstsExpr f ++ collectConstsExprs args

/-- Constant nodes of a list of expressions. -/
def collectConstsExprs : List PyExpr → List (Nat × PyConst)
  | [] => []
  | e :: rest => collectConstsExpr e ++ collectConstsExprs rest
end

mutual
/-- All constant nodes in a statement, in visit order. -/
def collectConstsStmt : PyStmt → List (Nat × PyConst)
  | .exprStmt _ v => collectConstsExpr v
  | .assign _ targets v => collectConstsExprs targets ++ collectConstsExpr v
  | .ret _ none => []
  | .ret _ (some v) => collectConstsExpr v
  | .pass _ => []
  | .functionDef _ _ body => collectConstsStmts body
  | .ifStmt _ t body orelse =>
      collectConstsExpr t ++ (collectConstsStmts body ++ collectConstsStmts orelse)
  | .whileStmt _ t body orelse =>
      collectConstsExpr t ++ (collectConstsStmts body ++ collectConstsStmts orelse)
  | .forStmt _ tgt it body orelse =>
      collectConstsExpr tgt ++
        (collectConstsExpr it ++ (collectConstsStmts body ++ collectConstsStmts orelse))

/-- Constant nodes of a statement sequence. -/
def collectConstsStmts : List PyStmt → List (Nat × PyConst)
  | [] => []
  | s :: rest => collectConstsStmt s ++ collectConstsStmts rest
end

mutual
/-- All function/method definition nodes reachable in a statement:
`(lineno, name, body)`. -/
def collectFunDefsStmt : PyStmt → List (Nat × String × List PyStmt)
  | .functionDef ln nm body => (ln, nm, body) :: collectFunDefs body
  | .ifStmt _ _ body orelse => collectFunDefs body ++ collectFunDefs orelse
  | .whileStmt _ _ body orelse => collectFunDefs body ++ collectFunDefs orelse
  | .forStmt _ _ _ body orelse => collectFunDefs body ++ collectFunDefs orelse
  | _ => []

/-- Function definition nodes of a statement sequence. -/
def collectFunDefs : List PyStmt → List (Nat × String × List PyStmt)
  | [] => []
  | s :: rest => collectFunDefsStmt s ++ collectFunDefs rest
end

mutual
/-- Modelled from the spec: "a compound statement's depth is 1 + the
maximum of the depths of each of its nested bodies" — every nested block
counts, the `orelse` blocks included, unlike the source's
`nesting_depth`. -/
def specStmtDepth : PyStmt → Nat
  | .functionDef _ _ body => 1 + specBodyDepth body
  | .ifStmt _ _ body orelse => 1 + max (specBodyDepth body) (specBodyDepth orelse)
  | .whileStmt _ _ body orelse => 1 + max (specBodyDepth body) (specBodyDepth orelse)
  | .forStmt _ _ _ body orelse => 1 + max (specBodyDepth body) (specBodyDepth orelse)
  | _ => 1

/-- Modelled from the spec: "the depth of a leaf statement sequence is
1". -/
def specBodyDepth : List PyStmt → Nat
  | [] => 1
  | s :: rest => max (specStmtDepth s) (specBodyDepth rest)
end

/-! ### Where findings of each reason label can come from -/

mutual
theorem visitExpr_reason : ∀ (e : PyExpr) (f : Finding), f ∈ visitExpr e →
    f.reason = debugLabel ∨ f.reason = magicLabel
  | .name _ _, f, h => by simp [visitExpr] at h
  | .attr _ v _, f, h => visitExpr_reason v f (by simpa [visitExpr] using h)
  | .const ln v, f, h => by
      simp only [visitExpr] at h
      by_cases hc : isIntOrFloat v = true
      · rw [if_pos hc] at h
        simp at h
        subst h
        exact Or.inr rfl
      · rw [if_neg hc] at h
        simp at h
  | .call ln fn args, f, h => by
      simp only [visitExpr] at h
      rcases List.mem_append.1 h with h1 | h2
      · by_cases hc : debugFuncs.contains (getFullName fn) = true
        · rw [if_pos hc] at h1
          simp at h1
          subst h1
          exact Or.inl rfl
        · rw [if_neg hc] at h1
          simp at h1
      · rcases List.mem_append.1 h2 with h3 | h4
        · exact visitExpr_reason fn f h3
        · exact visitExprs_reason args f h4

theorem visitExprs_reason : ∀ (es : List PyExpr) (f : Finding), f ∈ visitExprs es →
    f.reason = debugLabel ∨ f.reason = magicLabel
  | [], f, h => by simp [visitExprs] at h
  | e :: rest, f, h => by
      simp only [visitExprs] at h
      rcases List.mem_append.1 h with h1 | h2
      · exact visitExpr_reason e f h1
      · exact visitExprs_reason rest f h2
end

mutual
theorem visitStmt_fun_forward : ∀ (s : PyStmt) (f : Finding), f ∈ visitStmt s →
    (f.reason = debugLabel ∨ f.reason = magicLabel) ∨
    ∃ ln nm body, (ln, nm, body) ∈ collectFunDefsStmt s ∧
      ((f = ⟨ln, nm, tooLongLabel⟩ ∧ 50 < body.length) ∨
       (f = ⟨ln, nm, nestingLabel⟩ ∧ 4 < nesting_depth body 1))
  | .exprStmt _ v, f, h => Or.inl (visitExpr_reason v f (by simpa [visitStmt] using h))
  | .assign _ targets v, f, h => by
      simp only [visitStmt] at h
      rcases List.mem_append.1 h with h1 | h2
      · exact Or.inl (visitExprs_reason targets f h1)
      · exact Or.inl (visitExpr_reason v f h2)
  | .ret _ none, f, h => by simp [visitStmt] at h
  | .ret _ (some v), f, h => Or.inl (visitExpr_reason v f (by simpa [visitStmt] using h))
  | .pass _, f, h => by simp [visitStmt] at h
  | .functionDef ln nm body, f, h => by
      simp only [visitStmt] at h
      rcases List.mem_append.1 h with h1 | h2
      · by_cases hc : 50 < body.length
        · rw [if_pos (by omega : body.length > 50)] at h1
          simp at h1
          exact Or.inr ⟨ln, nm, body, List.mem_cons_self _ _, Or.inl ⟨h1, hc⟩⟩
        · rw [if_neg (by omega : ¬body.length > 50)] at h1
          simp at h1
      · rcases List.mem_append.1 h2 with h3 | h4
        · by_cases hc : 4 < nesting_depth body 1
          · rw [if_pos hc] at h3
            simp at h3
            exact Or.inr ⟨ln, nm, body, List.mem_cons_self _ _, Or.inr ⟨h3, hc⟩⟩
          · rw [if_neg hc] at h3
            simp at h3
        · rcases visitStmts_fun_forward body f h4 with hl | ⟨ln', nm', b', hmem, hcase⟩
          · exact Or.inl hl
          · exact Or.inr ⟨ln', nm', b',
              by simpa [collectFunDefsStmt] using Or.inr hmem, hcase⟩
  | .ifStmt _ t body orelse, f, h => by
      simp only [visitStmt] at h
      rcases List.mem_append.1 h with h1 | h2
      · exact Or.inl (visitExpr_reason t f h1)
      · rcases List.mem_append.1 h2 with h3 | h4
        · rcases visitStmts_fun_forward body f h3 with hl | ⟨ln', nm', b', hmem, hcase⟩
          · exact Or.inl hl
          · exact Or.inr ⟨ln', nm', b',
              by simpa [collectFunDefsStmt] using Or.inl hmem, hcase⟩
        · rcases visitStmts_fun_forward orelse f h4 with hl | ⟨ln', nm', b', hmem, hcase⟩
          · exact Or.inl hl
          · exact Or.inr ⟨ln', nm', b',
              by simpa [collectFunDefsStmt] using Or.inr hmem, hcase⟩
  | .whileStmt _ t body orelse, f, h => by
      simp only [visitStmt] at h
      rcases List.mem_append.1 h with h1 | h2
      · exact Or.inl (visitExpr_reason t f h1)
      · rcases List.mem_append.1 h2 with h3 | h4
        · rcases visitStmts_fun_forward body f h3 with hl | ⟨ln', nm', b', hmem, hcase⟩
          · exact Or.inl hl
          · exact Or.inr ⟨ln', nm', b',
              by simpa [collectFunDefsStmt] using Or.inl hmem, hcase⟩
        · rcases visitStmts_fun_forward orelse f h4 with hl | ⟨ln', nm', b', hmem, hcase⟩
          · exact Or.inl hl
          · exact Or.inr ⟨ln', nm', b',
              by simpa [collectFunDefsStmt] using Or.inr hmem, hcase⟩
  | .forStmt _ tgt it body orelse, f, h => by
      simp only [visitStmt] at h
      rcases List.mem_append.1 h with h1 | h2
      · exact Or.inl (visitExpr_reason tgt f h1)
      · rcases List.mem_append.1 h2 with h3 | h4
        · exact Or.inl (visitExpr_reason it f h3)
        · rcases List.mem_append.1 h4 with h5 | h6
          · rcases visitStmts_fun_forward body f h5 with hl | ⟨ln', nm', b', hmem, hcase⟩
            · exact Or.inl hl
            · exact Or.inr ⟨ln', nm', b',
                by simpa [collectFunDefsStmt] using Or.inl hmem, hcase⟩
          · rcases visitStmts_fun_forward orelse f h6 with hl | ⟨ln', nm', b', hmem, hcase⟩
            · exact Or.inl hl
            · exact Or.inr ⟨ln', nm', b',
                by simpa [collectFunDefsStmt] using Or.inr hmem, hcase⟩

theorem visitStmts_fun_forward : ∀ (l : List PyStmt) (f : Finding), f ∈ visitStmts l →
    (f.reason = debugLabel ∨ f.reason = magicLabel) ∨
    ∃ ln nm body, (ln, nm, body) ∈ collectFunDefs l ∧
      ((f = ⟨ln, nm, tooLongLabel⟩ ∧ 50 < body.length) ∨
       (f = ⟨ln, nm, nestingLabel⟩ ∧ 4 < nesting_depth body 1))
  | [], f, h => by simp [visitStmts] at h
  | s :: rest, f, h => by
      simp only [visitStmts] at h
      rcases List.mem_append.1 h with h1 | h2
      · rcases visitStmt_fun_forward s f h1 with hl | ⟨ln', nm', b', hmem, hcase⟩
        · exact Or.inl hl
        · exact Or.inr ⟨ln', nm', b',
            by simpa [collectFunDefs] using Or.inl hmem, hcase⟩
      · rcases visitStmts_fun_forward rest f h2 with hl | ⟨ln', nm', b', hmem, hcase⟩
        · exact Or.inl hl
        · exact Or.inr ⟨ln', nm', b',
            by simpa [collectFunDefs] using Or.inr hmem, hcase⟩
end

mutual
theorem visitStmt_fun_backward :
    ∀ (s : PyStmt) (ln : Nat) (nm : String) (body : List PyStmt),
      (ln, nm, body) ∈ collectFunDefsStmt s →
        (50 < body.length → (⟨ln, nm, tooLongLabel⟩ : Finding) ∈ visitStmt s) ∧
        (4 < nesting_depth body 1 → (⟨ln, nm, nestingLabel⟩ : Finding) ∈ visitStmt s)
  | .exprStmt _ v, ln, nm, body, h => by simp [collectFunDefsStmt] at h
  | .assign _ targets v, ln, nm, body, h => by simp [collectFunDefsStmt] at h
  | .ret _ none, ln, nm, body, h => by simp [collectFunDefsStmt] at h
  | .ret _ (some v), ln, nm, body, h => by simp [collectFunDefsStmt] at h
  | .pass _, ln, nm, body, h => by simp [collectFunDefsStmt] at h
  | .functionDef ln0 nm0 body0, ln, nm, body, h => by
      simp only [collectFunDefsStmt] at h
      rcases List.mem_cons.1 h with heq | htail
      · have hinj : ln = ln0 ∧ nm = nm0 ∧ body = body0 := by
          simpa [Prod.ext_iff] using heq
        obtain ⟨h1, h2, h3⟩ := hinj
        subst h1
        subst h2
        subst h3
        constructor
        · intro hlen
          simp only [visitStmt]
          exact List.mem_append.2 (Or.inl (by
            rw [if_pos (by omega : body.length > 50)]
            exact List.mem_singleton.2 rfl))
        · intro hdep
          simp only [visitStmt]
          refine List.mem_append.2 (Or.inr (List.mem_append.2 (Or.inl ?_)))
          rw [if_pos hdep]
          exact List.mem_singleton.2 rfl
      · obtain ⟨hL, hD⟩ := visitStmts_fun_backward body0 ln nm body htail
        constructor
        · intro hlen
          simp only [visitStmt]
          exact List.mem_append.2 (Or.inr (List.mem_append.2 (Or.inr (hL hlen))))
        · intro hdep
          simp only [visitStmt]
          exact List.mem_append.2 (Or.inr (List.mem_append.2 (Or.inr (hD hdep))))
  | .ifStmt _ t body0 orelse0, ln, nm, body, h => by
      simp only [collectFunDefsStmt] at h
      rcases List.mem_append.1 h with h1 | h2
      · obtain ⟨hL, hD⟩ := visitStmts_fun_backward body0 ln nm body h1
        exact ⟨fun hlen => by
            simp only [visitStmt]
            exact List.mem_append.2 (Or.inr (List.mem_append.2 (Or.inl (hL hlen)))),
          fun hdep => by
            simp only [visitStmt]
            exact List.mem_append.2 (Or.inr (List.mem_append.2 (Or.inl (hD hdep))))⟩
      · obtain ⟨hL, hD⟩ := visitStmts_fun_backward orelse0 ln nm body h2
        exact ⟨fun hlen => by
            simp only [visitStmt]
            exact List.mem_append.2 (Or.inr (List.mem_append.2 (Or.inr (hL hlen)))),
          fun hdep => by
            simp only [visitStmt]
            exact List.mem_append.2 (Or.inr (List.mem_append.2 (Or.inr (hD hdep))))⟩
  | .whileStmt _ t body0 orelse0, ln, nm, body, h => by
      simp only [collectFunDefsStmt] at h
      rcases List.mem_append.1 h with h1 | h2
      · obtain ⟨hL, hD⟩ := visitStmts_fun_backward body0 ln nm body h1
        exact ⟨fun hlen => by
            simp only [visitStmt]
            exact List.mem_append.2 (Or.inr (List.mem_append.2 (Or.inl (hL hlen)))),
          fun hdep => by
            simp only [visitStmt]
            exact List.mem_append.2 (Or.inr (List.mem_append.2 (Or.inl (hD hdep))))⟩
      · obtain ⟨hL, hD⟩ := visitStmts_fun_backward orelse0 ln nm body h2
        exact ⟨fun hlen => by
            simp only [visitStmt]
            exact List.mem_append.2 (Or.inr (List.mem_append.2 (Or.inr (hL hlen)))),
          fun hdep => by
            simp only [visitStmt]
            exact List.mem_append.2 (Or.inr (List.mem_append.2 (Or.inr (hD hdep))))⟩
  | .forStmt _ tgt it body0 orelse0, ln, nm, body, h => by
      simp only [collectFunDefsStmt] at h
      rcases List.mem_append.1 h with h1 | h2
      · obtain ⟨hL, hD⟩ := visitStmts_fun_backward body0 ln nm body h1
        exact ⟨fun hlen => by
            simp only [visitStmt]
            exact List.mem_append.2 (Or.inr (List.mem_append.2 (Or.inr
              (List.mem_append.2 (Or.inl (hL hlen)))))),
          fun hdep => by
            simp only [visitStmt]
            exact List.mem_append.2 (Or.inr (List.mem_append.2 (Or.inr
              (List.mem_append.2 (Or.inl (hD hdep))))))⟩
      · obtain ⟨hL, hD⟩ := visitStmts_fun_backward orelse0 ln nm body h2
        exact ⟨fun hlen => by
            simp only [visitStmt]
            exact List.mem_append.2 (Or.inr (List.mem_append.2 (Or.inr
              (List.mem_append.2 (Or.inr (hL hlen)))))),
          fun hdep => by
            simp only [visitStmt]
            exact List.mem_append.2 (Or.inr (List.mem_append.2 (Or.inr
              (List.mem_append.2 (Or.inr (hD hdep))))))⟩

theorem visitStmts_fun_backward :
    ∀ (l : List PyStmt) (ln : Nat) (nm : String) (body : List PyStmt),
      (ln, nm, body) ∈ collectFunDefs l →
        (50 < body.length → (⟨ln, nm, tooLongLabel⟩ : Finding) ∈ visitStmts l) ∧
        (4 < nesting_depth body 1 → (⟨ln, nm, nestingLabel⟩ : Finding) ∈ visitStmts l)
  | [], ln, nm, body, h => by simp [collectFunDefs] at h
  | s :: rest, ln, nm, body, h => by
      simp only [collectFunDefs] at h
      rcases List.mem_append.1 h with h1 | h2
      · obtain ⟨hL, hD⟩ := visitStmt_fun_backward s ln nm body h1
        exact ⟨fun hlen => by
            simp only [visitStmts]
            exact List.mem_append.2 (Or.inl (hL hlen)),
          fun hdep => by
            simp only [visitStmts]
            exact List.mem_append.2 (Or.inl (hD hdep))⟩
      · obtain ⟨hL, hD⟩ := visitStmts_fun_backward rest ln nm body h2
        exact ⟨fun hlen => by
            simp only [visitStmts]
            exact List.mem_append.2 (Or.inr (hL hlen)),
          fun hdep => by
            simp only [visitStmts]
            exact List.mem_append.2 (Or.inr (hD hdep))⟩
end

mutual
theorem collectConstsExpr_visited :
    ∀ (e : PyExpr) (ln : Nat) (v : PyConst),
      (ln, v) ∈ collectConstsExpr e → isIntOrFloat v = true →
        (⟨ln, constStr v, magicLabel⟩ : Finding) ∈ visitExpr e
  | .name _ _, ln, v, h, _ => by simp [collectConstsExpr] at h
  | .attr _ e0 _, ln, v, h, hv => by
      simp only [collectConstsExpr] at h
      simpa [visitExpr] using collectConstsExpr_visited e0 ln v h hv
  | .const ln0 v0, ln, v, h, hv => by
      simp only [collectConstsExpr] at h
      have hinj : ln = ln0 ∧ v = v0 := by simpa [Prod.ext_iff] using h
      obtain ⟨h1, h2⟩ := hinj
      subst h1
      subst h2
      simp only [visitExpr]
      rw [if_pos hv]
      exact List.mem_singleton.2 rfl
  | .call _ f0 args, ln, v, h, hv => by
      simp only [collectConstsExpr] at h
      simp only [visitExpr]
      rcases List.mem_append.1 h with h1 | h2
      · exact List.mem_append.2 (Or.inr (List.mem_append.2
          (Or.inl (collectConstsExpr_visited f0 ln v h1 hv))))
      · exact List.mem_append.2 (Or.inr (List.mem_append.2
          (Or.inr (collectConstsExprs_visited args ln v h2 hv))))

theorem collectConstsExprs_visited :
    ∀ (es : List PyExpr) (ln : Nat) (v : PyConst),
      (ln, v) ∈ collectConstsExprs es → isIntOrFloat v = true →
        (⟨ln, constStr v, magicLabel⟩ : Finding) ∈ visitExprs es
  | [], ln, v, h, _ => by simp [collectConstsExprs] at h
  | e :: rest, ln, v, h, hv => by
      simp only [collectConstsExprs] at h
      simp only [visitExprs]
      rcases List.mem_append.1 h with h1 | h2
      · exact List.mem_append.2 (Or.inl (collectConstsExpr_visited e ln v h1 hv))
      · exact List.mem_append.2 (Or.inr (collectConstsExprs_visited rest ln v h2 hv))
end

mutual
theorem collectConstsStmt_visited :
    ∀ (s : PyStmt) (ln : Nat) (v : PyConst),
      (ln, v) ∈ collectConstsStmt s → isIntOrFloat v = true →
        (⟨ln, constStr v, magicLabel⟩ : Finding) ∈ visitStmt s
  | .exprStmt _ e, ln, v, h, hv => by
      simp only [collectConstsStmt] at h
      simpa [visitStmt] using collectConstsExpr_visited e ln v h hv
  | .assign _ targets e, ln, v, h, hv => by
      simp only [collectConstsStmt] at h
      simp only [visitStmt]
      rcases List.mem_append.1 h with h1 | h2
      · exact List.mem_append.2 (Or.inl (collectConstsExprs_visited targets ln v h1 hv))
      · exact List.mem_append.2 (Or.inr (collectConstsExpr_visited e ln v h2 hv))
  | .ret _ none, ln, v, h, _ => by simp [collectConstsStmt] at h
  | .ret _ (some e), ln, v, h, hv => by
      simp only [collectConstsStmt] at h
      simpa [visitStmt] using collectConstsExpr_visited e ln v h hv
  | .pass _, ln, v, h, _ => by simp [collectConstsStmt] at h
  | .functionDef _ _ body, ln, v, h, hv => by
      simp only [collectConstsStmt] at h
      simp only [visitStmt]
      exact List.mem_append.2 (Or.inr (List.mem_append.2
        (Or.inr (collectConstsStmts_visited body ln v h hv))))
  | .ifStmt _ t body orelse, ln, v, h, hv => by
      simp only [collectConstsStmt] at h
      simp only [visitStmt]
      rcases List.mem_append.1 h with h1 | h2
      · exact List.mem_append.2 (Or.inl (collectConstsExpr_visited t ln v h1 hv))
      · rcases List.mem_append.1 h2 with h3 | h4
        · exact List.mem_append.2 (Or.inr (List.mem_append.2
            (Or.inl (collectConstsStmts_visited body ln v h3 hv))))
        · exact List.mem_append.2 (Or.inr (List.mem_append.2
            (Or.inr (collectConstsStmts_visited orelse ln v h4 hv))))
  | .whileStmt _ t body orelse, ln, v, h, hv => by
      simp only [collectConstsStmt] at h
      simp only [visitStmt]
      rcases List.mem_append.1 h with h1 | h2
      · exact List.mem_append.2 (Or.inl (collectConstsExpr_visited t ln v h1 hv))
      · rcases List.mem_append.1 h2 with h3 | h4
        · exact List.mem_append.2 (Or.inr (List.mem_append.2
            (Or.inl (collectConstsStmts_visited body ln v h3 hv))))
        · exact List.mem_append.2 (Or.inr (List.mem_append.2
            (Or.inr (collectConstsStmts_visited orelse ln v h4 hv))))
  | .forStmt _ tgt it body orelse, ln, v, h, hv => by
      simp only [collectConstsStmt] at h
      simp only [visitStmt]
      rcases List.mem_append.1 h with h1 | h2
      · exact List.mem_append.2 (Or.inl (collectConstsExpr_visited tgt ln v h1 hv))
      · rcases List.mem_append.1 h2 with h3 | h4
        · exact List.mem_append.2 (Or.inr (List.mem_append.2
            (Or.inl (collectConstsExpr_visited it ln v h3 hv))))
        · rcases List.mem_append.1 h4 with h5 | h6
          · exact List.mem_append.2 (Or.inr (List.mem_append.2 (Or.inr
              (List.mem_append.2 (Or.inl (collectConstsStmts_visited body ln v h5 hv))))))
          · exact List.mem_append.2 (Or.inr (List.mem_append.2 (Or.inr
              (List.mem_append.2 (Or.inr (collectConstsStmts_visited orelse ln v h6 hv))))))

theorem collectConstsStmts_visited :
    ∀ (l : List PyStmt) (ln : Nat) (v : PyConst),
      (ln, v) ∈ collectConstsStmts l → isIntOrFloat v = true →
        (⟨ln, constStr v, magicLabel⟩ : Finding) ∈ visitStmts l
  | [], ln, v, h, _ => by simp [collectConstsStmts] at h
  | s :: rest, ln, v, h, hv => by
      simp only [collectConstsStmts] at h
      simp only [visitStmts]
      rcases List.mem_append.1 h with h1 | h2
      · exact List.mem_append.2 (Or.inl (collectConstsStmt_visited s ln v h1 hv))
      · exact List.mem_append.2 (Or.inr (collectConstsStmts_visited rest ln v h2 hv))
end

/-! ### Claims C3, C4, C5, C9, C10 -/

/-- C3: on a parse failure the Structural Analyzer returns exactly one
finding — line number 0, the parse-failure text (`"AST parsing failed: "`
plus the error detail) in the message slot and the `⚠️` reason label — and
performs no tree walk, so no other finding is emitted. -/
theorem analyze_python_parse_failure (e : String) :
    analyze_python_code_ast (.error e) =
        [⟨0, "AST parsing failed: " ++ e, "⚠️"⟩] ∧
    (analyze_python_code_ast (.error e)).length = 1 ∧
    ∀ f ∈ analyze_python_code_ast (.error e), f.lineno = 0 := by
  refine ⟨rfl, rfl, ?_⟩
  intro f h
  simp [analyze_python_code_ast] at h
  subst h
  rfl

/-- C9: the module `print(1)` yields exactly two findings — the debug call
`print` and the magic number `1` — and nothing else. -/
theorem analyze_print_one :
    analyze_python_code_ast (.ok [PyStmt.exprStmt 1
        (PyExpr.call 1 (PyExpr.name 1 "print") [PyExpr.const 1 (PyConst.intVal 1)])]) =
      [⟨1, "print", debugLabel⟩, ⟨1, "1", magicLabel⟩] := by
  decide

set_option maxRecDepth 4000 in
/-- C5: a "function too long" finding is emitted exactly for the function
definitions whose top-level body holds more than 50 statements; a
51-statement body is flagged, a 50-statement one is not. -/
theorem function_too_long_iff :
    (∀ (body : List PyStmt) (ln : Nat) (nm : String),
        (⟨ln, nm, tooLongLabel⟩ : Finding) ∈ analyze_python_code_ast (.ok body) ↔
          ∃ b, (ln, nm, b) ∈ collectFunDefs body ∧ 50 < b.length) ∧
    analyze_python_code_ast
        (.ok [PyStmt.functionDef 1 "f" (List.replicate 51 (PyStmt.pass 2))]) =
      [⟨1, "f", tooLongLabel⟩] ∧
    analyze_python_code_ast
        (.ok [PyStmt.functionDef 1 "g" (List.replicate 50 (PyStmt.pass 2))]) = [] := by
  refine ⟨?_, by decide, by decide⟩
  intro body ln nm
  constructor
  · intro h
    rcases visitStmts_fun_forward body _ h with hl | ⟨ln', nm', b', hmem, hcase⟩
    · rcases hl with hl | hl
      · exact absurd hl (show ¬(tooLongLabel = debugLabel) by decide)
      · exact absurd hl (show ¬(tooLongLabel = magicLabel) by decide)
    · rcases hcase with ⟨heq, hlen⟩ | ⟨heq, _⟩
      · simp only [Finding.mk.injEq] at heq
        obtain ⟨h1, h2, _⟩ := heq
        subst h1
        subst h2
        exact ⟨b', hmem, hlen⟩
      · simp only [Finding.mk.injEq] at heq
        exact absurd heq.2.2 (by decide)
  · rintro ⟨b, hmem, hlen⟩
    exact (visitStmts_fun_backward body ln nm b hmem).1 hlen

/-- The `orelse`-only nesting chain used to separate the source's
`nesting_depth` from the spec's depth measure: four `if` statements, each
the sole statement of the previous one's `else` block. -/
def orelseChain : List PyStmt :=
  [PyStmt.ifStmt 2 (PyExpr.name 2 "a") [PyStmt.pass 3]
    [PyStmt.ifStmt 4 (PyExpr.name 4 "b") [PyStmt.pass 5]
      [PyStmt.ifStmt 6 (PyExpr.name 6 "c") [PyStmt.pass 7]
        [PyStmt.ifStmt 8 (PyExpr.name 8 "d") [PyStmt.pass 9] []]]]]

/-- C4 (counterexample): a function whose maximum nesting depth under the
spec's definition — 1 + the maximum over each nested body, `orelse`
included — equals 5, yet the source's `nesting_depth` (which descends only
`stmt.body`) computes 2, and the analyzer emits no finding at all for it:
the claim's "iff at spec depth > 4" fails on this input. -/
theorem nesting_depth_spec_counterexample :
    specBodyDepth orelseChain = 5 ∧
    nesting_depth orelseChain 1 = 2 ∧
    analyze_python_code_ast (.ok [PyStmt.functionDef 1 "f" orelseChain]) = [] := by
  refine ⟨by decide, by decide, by decide⟩

/-- A body whose primary-`body` chain is 4 deep (function depth 5). -/
def depth5Body : List PyStmt :=
  [PyStmt.ifStmt 2 (PyExpr.name 2 "a")
    [PyStmt.ifStmt 3 (PyExpr.name 3 "b")
      [PyStmt.ifStmt 4 (PyExpr.name 4 "c")
        [PyStmt.ifStmt 5 (PyExpr.name 5 "d") [PyStmt.pass 6] []] []] []] []]

/-- A body whose primary-`body` chain is 3 deep (function depth 4). -/
def depth4Body : List PyStmt :=
  [PyStmt.ifStmt 2 (PyExpr.name 2 "a")
    [PyStmt.ifStmt 3 (PyExpr.name 3 "b")
      [PyStmt.ifStmt 4 (PyExpr.name 4 "c") [PyStmt.pass 5] []] []] []]

/-- C4 (amended): a "nesting too deep" finding is emitted exactly for the
function definitions with `nesting_depth(body, 1) > 4`, where the depth
follows only each compound statement's primary `body` block (`orelse` and
other secondary blocks do not count); a depth-5 function under this measure
is flagged and a depth-4 one is not. -/
theorem nesting_too_deep_iff :
    (∀ (body : List PyStmt) (ln : Nat) (nm : String),
        (⟨ln, nm, nestingLabel⟩ : Finding) ∈ analyze_python_code_ast (.ok body) ↔
          ∃ b, (ln, nm, b) ∈ collectFunDefs body ∧ 4 < nesting_depth b 1) ∧
    nesting_depth depth5Body 1 = 5 ∧
    analyze_python_code_ast (.ok [PyStmt.functionDef 1 "f" depth5Body]) =
      [⟨1, "f", nestingLabel⟩] ∧
    nesting_depth depth4Body 1 = 4 ∧
    analyze_python_code_ast (.ok [PyStmt.functionDef 1 "g" depth4Body]) = [] := by
  refine ⟨?_, by decide, by decide, by decide, by decide⟩
  intro body ln nm
  constructor
  · intro h
    rcases visitStmts_fun_forward body _ h with hl | ⟨ln', nm', b', hmem, hcase⟩
    · rcases hl with hl | hl
      · exact absurd hl (show ¬(nestingLabel = debugLabel) by decide)
      · exact absurd hl (show ¬(nestingLabel = magicLabel) by decide)
    · rcases hcase with ⟨heq, _⟩ | ⟨heq, hdep⟩
      · simp only [Finding.mk.injEq] at heq
        exact absurd heq.2.2 (by decide)
      · simp only [Finding.mk.injEq] at heq
        obtain ⟨h1, h2, _⟩ := heq
        subst h1
        subst h2
        exact ⟨b', hmem, hdep⟩
  · rintro ⟨b, hmem, hdep⟩
    exact (visitStmts_fun_backward body ln nm b hmem).2 hdep

/-- C10: every boolean literal in a parsed module receives a
"magic number" finding, exactly like the int and float literals, because
`isinstance(value, (int, float))` holds of Python booleans (`bool`
subclasses `int`); the flagged text is `str(True)`/`str(False)`. -/
theorem magic_number_includes_booleans :
    (∀ (body : List PyStmt) (ln : Nat) (v : PyConst),
        (ln, v) ∈ collectConstsStmts body → isIntOrFloat v = true →
          (⟨ln, constStr v, magicLabel⟩ : Finding) ∈ analyze_python_code_ast (.ok body)) ∧
    (∀ b : Bool, isIntOrFloat (PyConst.boolVal b) = true) ∧
    constStr (PyConst.boolVal true) = "True" ∧
    constStr (PyConst.boolVal false) = "False" := by
  refine ⟨?_, fun b => rfl, rfl, rfl⟩
  intro body ln v h hv
  exact collectConstsStmts_visited body ln v h hv

/-- Witness for C10: the one-statement module `True` (a lone boolean
expression at line 1) gets the finding `(1, "True", magic number)`. -/
theorem magic_number_includes_booleans_witness :
    (1, PyConst.boolVal true) ∈
        collectConstsStmts [PyStmt.exprStmt 1 (PyExpr.const 1 (PyConst.boolVal true))] ∧
    (⟨1, "True", magicLabel⟩ : Finding) ∈
        analyze_python_code_ast
          (.ok [PyStmt.exprStmt 1 (PyExpr.const 1 (PyConst.boolVal true))]) :=
  ⟨by decide, magic_number_includes_booleans.1 _ 1 (PyConst.boolVal true)
    (by decide) (by decide)⟩

/-! ## The Heuristic Analyzer: `analyze_text_file_lines` -/

/-- One heuristic check: an opaque line predicate (the semantics of
`re.search(check["pattern"], line)` — the regex engine is external) and the
message to attach. -/
structure Check where
  matchesLine : String → Bool
  message : String

/-- The inner loop of `analyze_text_file_lines`: apply every check to one
line, in list order, with no early exit. -/
def runChecks (i : Nat) (line : String) : List Check → List Finding
  | [] => []
  | c :: rest =>
      (if c.matchesLine line then [⟨i, pyStrip line, c.message⟩] else []) ++
        runChecks i line rest

/-- The outer loop of `analyze_text_file_lines`: lines numbered from 1
(`enumerate(lines, 1)`). -/
def runLines (checks : List Check) : Nat → List String → List Finding
  | _, [] => []
  | i, line :: rest => runChecks i line checks ++ runLines checks (i + 1) rest

/-- `analyze_text_file_lines`: the file read is external, so the function
consumes its outcome (the `readlines()` result, or the exception text); a
read failure yields the single finding `(0, str(e), "⚠️ File reading
error")`. -/
def analyze_text_file_lines (readResult : Except String (List String))
    (checks : List Check) : List Finding :=
  match readResult with
  | .error e => [⟨0, e, "⚠️ File reading error"⟩]
  | .ok lines => runLines checks 1 lines

theorem runChecks_eq (i : Nat) (line : String) :
    ∀ checks : List Check,
      runChecks i line checks =
        (checks.filter fun c => c.matchesLine line).map fun c =>
          (⟨i, pyStrip line, c.message⟩ : Finding) := by
  intro checks
  induction checks with
  | nil => rfl
  | cons c rest ih =>
      by_cases h : c.matchesLine line <;>
        simp [runChecks, List.filter_cons, h, ih]

theorem runLines_eq (checks : List Check) :
    ∀ (lines : List String) (i : Nat),
      runLines checks i lines =
        (List.enumFrom i lines).flatMap fun p =>
          (checks.filter fun c => c.matchesLine p.2).map fun c =>
            (⟨p.1, pyStrip p.2, c.message⟩ : Finding) := by
  intro lines
  induction lines with
  | nil => intro i; rfl
  | cons line rest ih =>
      intro i
      simp [runLines, List.enumFrom, runChecks_eq, ih]

/-- C6: for a readable file, `analyze_text_file_lines` emits exactly one
finding per (line, check) pair whose check matches the line — with the
line's 1-based number and stripped text and the check's message — in line
order and, within a line, in check-list order, with no early exit; for an
unreadable file it emits exactly one finding with line number 0. -/
theorem analyze_text_file_lines_spec :
    (∀ (e : String) (checks : List Check),
        analyze_text_file_lines (.error e) checks =
          [⟨0, e, "⚠️ File reading error"⟩]) ∧
    (∀ (lines : List String) (checks : List Check),
        analyze_text_file_lines (.ok lines) checks =
          (List.enumFrom 1 lines).flatMap fun p =>
            (checks.filter fun c => c.matchesLine p.2).map fun c =>
              (⟨p.1, pyStrip p.2, c.message⟩ : Finding)) :=
  ⟨fun _ _ => rfl, fun lines checks => runLines_eq checks lines 1⟩

/-! ## External Tool Analyzers

A subprocess invocation is external: each analyzer consumes an `Except`
that is either the `CompletedProcess` data or the raised exception's text.
A later call in the same `try` block is only reached when the earlier ones
succeeded, which the nesting of the matches below reproduces. -/

/-- `subprocess.run(..., capture_output=True, text=True)` result. -/
structure ProcResult where
  returncode : Int
  stdout : String
  stderr : String

/-- `analyze_go_code`: one `go vet` invocation; non-empty standard error
gives one finding per line; an invocation failure gives the single
diagnostic finding. -/
def analyze_go_code (run : Except String ProcResult) : List Finding :=
  match run with
  | .error e => [⟨0, e, "⚠️ Go parsing failed"⟩]
  | .ok r =>
      if r.stderr = "" then []
      else (splitlines r.stderr).map fun l => ⟨0, pyStrip l, "🧪 go vet warning"⟩

/-- One record of the JSON array printed by `analyze_ts_ast.js`. -/
structure TsItem where
  line : Nat
  content : String
  reason : String

/-- `analyze_ts_code`: a `node` invocation, then `json.loads` on its
standard output (also external, hence a second `Except`); a failure at
either stage gives the single diagnostic finding. -/
def analyze_ts_code (run : Except String ProcResult)
    (parseJson : String → Except String (List TsItem)) : List Finding :=
  match run with
  | .error e => [⟨0, e, "⚠️ TypeScript parsing failed"⟩]
  | .ok r =>
      if r.stdout = "" then []
      else
        match parseJson r.stdout with
        | .error e => [⟨0, e, "⚠️ TypeScript parsing failed"⟩]
        | .ok items => items.map fun it => ⟨it.line, it.content, it.reason⟩

/-- `analyze_terraform`: `terraform fmt -check` then `terraform validate`;
a failure of either invocation is caught and appended as one diagnostic
finding (after whatever findings the earlier stage already appended). -/
def analyze_terraform (fmtRun validateRun : Except String ProcResult) : List Finding :=
  match fmtRun with
  | .error e => [⟨0, e, "⚠️ Terraform parsing failed"⟩]
  | .ok fmt =>
      (if fmt.returncode ≠ 0 then
        [⟨0, "Terraform fmt check failed", "🧹 Format mismatch"⟩]
      else []) ++
      match validateRun with
      | .error e => [⟨0, e, "⚠️ Terraform parsing failed"⟩]
      | .ok v =>
          if v.returncode ≠ 0 then [⟨0, pyStrip v.stderr, "🛠️ Terraform syntax error"⟩]
          else []

/-- `analyze_ruby_code`: `ruby -c`, then `which rubocop`, then — only when
`which` exits 0 — `rubocop --format simple`; a failure of any invocation is
caught and appended as one diagnostic finding. -/
def analyze_ruby_code (synRun whichRun ruboRun : Except String ProcResult) : List Finding :=
  match synRun with
  | .error e => [⟨0, e, "⚠️ Ruby parsing failed"⟩]
  | .ok syn =>
      (if pyContains syn.stdout "Syntax OK" then []
      else [⟨0, pyStrip syn.stdout, "🛠️ Ruby syntax error"⟩]) ++
      match whichRun with
      | .error e => [⟨0, e, "⚠️ Ruby parsing failed"⟩]
      | .ok w =>
          if w.returncode = 0 then
            match ruboRun with
            | .error e => [⟨0, e, "⚠️ Ruby parsing failed"⟩]
            | .ok rubo =>
                ((splitlines rubo.stdout).filter fun l =>
                  pyContains l ":" && pyContains l "Offense").map fun l =>
                    ⟨0, pyStrip l, "🧹 RuboCop warning"⟩
          else []

/-- C7: every external-tool analyzer converts a failed binary invocation
into a single line-0 diagnostic finding carrying the error detail and
still returns a findings list (each function is total, so the failure never
escapes the analyzer): shown for the failure of each invocation of each of
the four analyzers, including the ones reached after earlier stages already
contributed findings. -/
theorem external_tool_failure_findings :
    (∀ e : String, analyze_go_code (.error e) = [⟨0, e, "⚠️ Go parsing failed"⟩]) ∧
    (∀ (e : String) (pj : String → Except String (List TsItem)),
        analyze_ts_code (.error e) pj = [⟨0, e, "⚠️ TypeScript parsing failed"⟩]) ∧
    (∀ (e : String) (r : ProcResult),
        analyze_ts_code (.ok r) (fun _ => .error e) =
          if r.stdout = "" then [] else [⟨0, e, "⚠️ TypeScript parsing failed"⟩]) ∧
    (∀ (e : String) (vr : Except String ProcResult),
        analyze_terraform (.error e) vr = [⟨0, e, "⚠️ Terraform parsing failed"⟩]) ∧
    (∀ (e : String) (fmt : ProcResult),
        analyze_terraform (.ok fmt) (.error e) =
          (if fmt.returncode ≠ 0 then
            [⟨0, "Terraform fmt check failed", "🧹 Format mismatch"⟩]
          else []) ++ [⟨0, e, "⚠️ Terraform parsing failed"⟩]) ∧
    (∀ (e : String) (wr rr : Except String ProcResult),
        analyze_ruby_code (.error e) wr rr = [⟨0, e, "⚠️ Ruby parsing failed"⟩]) ∧
    (∀ (e : String) (syn : ProcResult) (rr : Except String ProcResult),
        analyze_ruby_code (.ok syn) (.error e) rr =
          (if pyContains syn.stdout "Syntax OK" then []
          else [⟨0, pyStrip syn.stdout, "🛠️ Ruby syntax error"⟩]) ++
            [⟨0, e, "⚠️ Ruby parsing failed"⟩]) ∧
    (∀ (e : String) (syn w : ProcResult),
        analyze_ruby_code (.ok syn) (.ok w) (.error e) =
          (if pyContains syn.stdout "Syntax OK" then []
          else [⟨0, pyStrip syn.stdout, "🛠️ Ruby syntax error"⟩]) ++
            (if w.returncode = 0 then [⟨0, e, "⚠️ Ruby parsing failed"⟩] else [])) := by
  refine ⟨fun e => rfl, fun e pj => rfl, ?_, fun e vr => rfl, fun e fmt => rfl,
    fun e wr rr => rfl, fun e syn rr => rfl, ?_⟩
  · intro e r
    by_cases h : r.stdout = "" <;> simp [analyze_ts_code, h]
  · intro e syn w
    by_cases h : w.returncode = 0 <;> simp [analyze_ruby_code, h]

/-! ## The Language Router (the per-file dispatch inside `review_pr`) -/

/-- The per-extension check-list selection of the `.cpp/.hpp/.java/.rs/
.html/.css` branch: `checks` starts empty and each `elif` narrows it;
note that `.hpp` keeps the empty list. -/
def textChecksFor (filename : String)
    (cpp java rs html css : List Check) : List Check :=
  if pyEndsWith filename ".cpp" then cpp
  else if pyEndsWith filename ".java" then java
  else if pyEndsWith filename ".rs" then rs
  else if pyEndsWith filename ".html" then html
  else if pyEndsWith filename ".css" then css
  else []

/-- The per-file dispatch chain of `review_pr`.  The analyzers themselves
need file contents and subprocesses, so they are passed in as thunks; the
text analyzer receives the selected check list.  The `endswith` tests and
their order are the source's. -/
def route_file (filename : String)
    (pyAnalyzer tsAnalyzer tfAnalyzer goAnalyzer rbAnalyzer : Unit → List Finding)
    (textAnalyzer : List Check → List Finding)
    (cpp java rs html css : List Check) : List Finding :=
  if pyEndsWith filename ".py" then pyAnalyzer ()
  else if pyEndsWith filename ".ts" || pyEndsWith filename ".tsx" ||
      pyEndsWith filename ".js" || pyEndsWith filename ".jsx" then tsAnalyzer ()
  else if pyEndsWith filename ".cpp" || pyEndsWith filename ".hpp" ||
      pyEndsWith filename ".java" || pyEndsWith filename ".rs" ||
      pyEndsWith filename ".html" || pyEndsWith filename ".css" then
    textAnalyzer (textChecksFor filename cpp java rs html css)
  else if pyEndsWith filename ".tf" then tfAnalyzer ()
  else if pyEndsWith filename ".go" then goAnalyzer ()
  else if pyEndsWith filename ".rb" then rbAnalyzer ()
  else []

/-- The extensions the dispatch chain recognizes. -/
def recognizedExts : List String :=
  [".py", ".ts", ".tsx", ".js", ".jsx", ".cpp", ".hpp", ".java", ".rs",
    ".html", ".css", ".tf", ".go", ".rb"]

/-- Does some recognized extension match the filename? -/
def recognized_extension (filename : String) : Bool :=
  recognizedExts.any (pyEndsWith filename)

/-- C8: a changed file whose name matches none of the recognized
extensions falls through every branch of the dispatch chain: the router
contributes zero findings for it and no analyzer is invoked (no error can
arise). -/
theorem router_unrecognized_extension (filename : String)
    (pyAnalyzer tsAnalyzer tfAnalyzer goAnalyzer rbAnalyzer : Unit → List Finding)
    (textAnalyzer : List Check → List Finding)
    (cpp java rs html css : List Check)
    (h : recognized_extension filename = false) :
    route_file filename pyAnalyzer tsAnalyzer tfAnalyzer goAnalyzer rbAnalyzer
      textAnalyzer cpp java rs html css = [] := by
  have hall : ∀ ext ∈ recognizedExts, pyEndsWith filename ext = false := by
    rw [recognized_extension] at h
    intro ext hext
    exact Bool.not_eq_true _ ▸ Bool.eq_false_iff.2 (List.any_eq_false.1 h ext hext)
  simp [route_file,
    hall ".py" (by simp [recognizedExts]),
    hall ".ts" (by simp [recognizedExts]),
    hall ".tsx" (by simp [recognizedExts]),
    hall ".js" (by simp [recognizedExts]),
    hall ".jsx" (by simp [recognizedExts]),
    hall ".cpp" (by simp [recognizedExts]),
    hall ".hpp" (by simp [recognizedExts]),
    hall ".java" (by simp [recognizedExts]),
    hall ".rs" (by simp [recognizedExts]),
    hall ".html" (by simp [recognizedExts]),
    hall ".css" (by simp [recognizedExts]),
    hall ".tf" (by simp [recognizedExts]),
    hall ".go" (by simp [recognizedExts]),
    hall ".rb" (by simp [recognizedExts])]

/-- Witness for C8: `README.md` matches no recognized extension and routes
to the empty findings list, whatever the analyzers would return. -/
theorem router_unrecognized_extension_witness :
    recognized_extension "README.md" = false ∧
    route_file "README.md" (fun _ => [⟨1, "a", "b"⟩]) (fun _ => [⟨2, "a", "b"⟩])
      (fun _ => [⟨3, "a", "b"⟩]) (fun _ => [⟨4, "a", "b"⟩]) (fun _ => [⟨5, "a", "b"⟩])
      (fun _ => [⟨6, "a", "b"⟩]) [] [] [] [] [] = [] :=
  ⟨by decide,
    router_unrecognized_extension "README.md" _ _ _ _ _ _ _ _ _ _ _ (by decide)⟩

/-- Witness for C3: the parse failure `"boom"` yields the one finding, and
the line-0 clause applies to it. -/
theorem analyze_python_parse_failure_witness :
    (⟨0, "AST parsing failed: boom", "⚠️"⟩ : Finding) ∈
        analyze_python_code_ast (.error "boom") ∧
    (⟨0, "AST parsing failed: boom", "⚠️"⟩ : Finding).lineno = 0 :=
  ⟨by decide, (analyze_python_parse_failure "boom").2.2 _ (by decide)⟩
